import Mathlib

/-!
# A verification model of `gnb.py`

This file is a shallow embedding of the graph/object store implemented in
`gnb.py` (class `GNB` together with `EdgeConfig` and `Edge`), and proofs of
the behavioural properties claimed about it.

Modelling conventions:
* The three sqlite tables (`obj`, `edges`, `edge_config`) are Lean lists of
  row structures; the `(from,to,type)` / `oid` / `type` primary keys are
  modelled by the insert/upsert functions exactly as sqlite treats them
  (`insert` fails on a key conflict with `IntegrityError`, `insert or
  replace` upserts).
* Every `conn.query` call in the Python code commits independently, and a
  Python exception aborts the rest of the method but keeps the effects of
  the statements already executed.  Mutating operations therefore return
  `GNB × Option PyErr`: the state after the call (including partial
  effects) together with the exception raised, if any.
* Python truthiness is modelled where the source relies on it:
  `if not self.inverse_type` is false for `None` and for the empty string;
  `if start:` / `if end:` are false for `None` and for `0`.
* Payloads are opaque values serialized by the external `json` module
  (not part of this repository); they are modelled by the small value
  type `PyObj` with an executable encoder/decoder pair.
* The source is Python 2 (`import Queue`, `edges.values()[0]`), where
  dict iteration is CPython 2.7's hash-table order, not insertion
  order.  Result dicts are therefore modelled as association lists whose
  enumeration order is a canonical choice (insertion order), standing
  for the dict's value *set*: no theorem below depends on the
  enumeration order of a multi-entry dict — only on membership and on
  empty or singleton results, where every enumeration coincides.  Where
  the iteration order itself is at issue, the genuine CPython 2.7 order
  is modelled separately (`py2StringHash`, `py2SmallDictValues`).
-/

/-- A Python value usable as an object/edge payload.  The payload codec
(`json.dumps` / `json.loads`) is external to the repository; this small
value universe (None, booleans, strings) is enough to express every
property claimed about payload handling. -/
inductive PyObj where
  | pyNone : PyObj
  | pyBool (b : Bool) : PyObj
  | pyStr (s : String) : PyObj
deriving DecidableEq, Repr

/-- The Python exceptions the code in `gnb.py` can raise, one constructor
per raise site:
* `keyError t` — `self.configs[type]` on an unregistered type
  (`edge_add` line 82, `edge_remove` line 99); the spec calls this
  `UnknownEdgeType`;
* `integrityError` — the plain `insert into edges` on an existing
  `(oid1, oid2, type)` primary key (`edge_add` line 97);
* `assertNoObject oid` — the assertion in `obj_get` (line 75); the spec
  calls this `NotFound`;
* `assertNoEdges oid type` — the assertion in `edge_get_one` (line 126);
  the spec calls this `NoSuchEdge`;
* `assertInvalidConfig` — the assertion in `EdgeConfig.__init__`
  (line 10); the spec calls this `InvalidConfig`;
* `valueErrorJSON` — `json.loads` on undecodable data in `obj_get`. -/
inductive PyErr where
  | keyError (key : String) : PyErr
  | integrityError : PyErr
  | assertNoObject (oid : String) : PyErr
  | assertNoEdges (oid type : String) : PyErr
  | assertInvalidConfig : PyErr
  | valueErrorJSON : PyErr
deriving DecidableEq, Repr

/-- Modelled from the spec: the payload codec (`json.dumps` in the Python
standard library, not part of this repository) escapes the characters that
would terminate or confuse a JSON string literal. -/
def escChar (c : Char) : List Char :=
  if c = '"' ∨ c = '\\' then ['\\', c] else [c]

/-- String-body escaping, character by character. -/
def escape : List Char → List Char
  | [] => []
  | c :: rest => escChar c ++ escape rest

/-- Modelled from the spec: `json.dumps` restricted to the `PyObj` value
universe.  `None ↦ "null"`, booleans to their JSON literals, strings to a
double-quoted escaped literal. -/
def jsonDumps : PyObj → String
  | .pyNone => "null"
  | .pyBool true => "true"
  | .pyBool false => "false"
  | .pyStr s => String.mk ('"' :: (escape s.data ++ ['"']))

/-- Inverse of `escape`: consumes the body of a string literal up to the
closing quote, rejecting anything `jsonDumps` would not have produced. -/
def unescape : List Char → Option (List Char)
  | [] => none
  | c :: rest =>
    if c = '"' then (if rest = [] then some [] else none)
    else if c = '\\' then
      match rest with
      | [] => none
      | d :: rest2 =>
        if d = '"' ∨ d = '\\' then (unescape rest2).map (fun cs => d :: cs)
        else none
    else (unescape rest).map (fun cs => c :: cs)

/-- Modelled from the spec: `json.loads` restricted to the `PyObj` value
universe, the partial inverse of `jsonDumps`. -/
def jsonLoads (s : String) : Option PyObj :=
  if s.data = ['n', 'u', 'l', 'l'] then some .pyNone
  else if s.data = ['t', 'r', 'u', 'e'] then some (.pyBool true)
  else if s.data = ['f', 'a', 'l', 's', 'e'] then some (.pyBool false)
  else
    match s.data with
    | '"' :: rest => (unescape rest).map (fun cs => PyObj.pyStr (String.mk cs))
    | _ => none

theorem unescape_escape (cs : List Char) :
    unescape (escape cs ++ ['"']) = some cs := by
  induction cs with
  | nil => simp [escape, unescape]
  | cons c rest ih =>
    by_cases h : c = '"' ∨ c = '\\'
    · have hc : c ≠ '"' ∨ True := by tauto
      simp only [escape, escChar, if_pos h, List.cons_append, List.append_assoc]
      simp [unescape, h, ih]
    · push_neg at h
      simp only [escape, escChar, if_neg (by tauto : ¬(c = '"' ∨ c = '\\')),
        List.cons_append]
      rw [unescape.eq_def]
      simp only [if_neg h.1, if_neg h.2, List.nil_append, ih]
      rfl

theorem escape_append_quote_ne_null (cs : List Char) :
    ('"' :: (escape cs ++ ['"'])) ≠ ['n', 'u', 'l', 'l'] := by
  intro h
  exact absurd (List.head_eq_of_cons_eq h) (by decide)

theorem jsonLoads_jsonDumps (v : PyObj) : jsonLoads (jsonDumps v) = some v := by
  cases v with
  | pyNone => rfl
  | pyBool b => cases b <;> rfl
  | pyStr s =>
    have hmk : (String.mk ('"' :: (escape s.data ++ ['"']))).data
        = '"' :: (escape s.data ++ ['"']) := rfl
    simp only [jsonDumps, jsonLoads, hmk]
    rw [if_neg, if_neg, if_neg]
    · simp [unescape_escape]
    · intro h; exact absurd (List.head_eq_of_cons_eq h) (by decide)
    · intro h; exact absurd (List.head_eq_of_cons_eq h) (by decide)
    · intro h; exact absurd (List.head_eq_of_cons_eq h) (by decide)

/-- The edge-type configuration (`EdgeConfig` in gnb.py, lines 8-19).
Python stores `unique` / `bidi` / `inverse_unique` values only to test
their truthiness (and to round-trip them through sqlite), so they are
modelled as `Bool` (the `None` defaults collapse to `false`).
`inverse_type`, whose truthiness distinguishes `None`/`''` from a real
type name, is an `Option String` with the empty string treated as falsy
wherever the source tests it. -/
structure EdgeConfig where
  type : String
  unique : Bool
  bidi : Bool
  inverse_type : Option String
  inverse_unique : Bool
deriving DecidableEq, Repr

/-- Truthiness of an optional Python string: `None` and `''` are falsy. -/
def strTruthy : Option String → Bool
  | none => false
  | some s => !(s == "")

/-- `EdgeConfig.__init__` (gnb.py line 9-15): asserts that the config is
not both bidirectional and equipped with an inverse type (the assertion
fires only when both are truthy), then stores the fields. -/
def mkEdgeConfig (type : String) (unique bidi : Bool)
    (inverse_type : Option String) (inverse_unique : Bool) :
    Except PyErr EdgeConfig :=
  if bidi && strTruthy inverse_type then .error .assertInvalidConfig
  else .ok ⟨type, unique, bidi, inverse_type, inverse_unique⟩

/-- `EdgeConfig.get_inverse` (gnb.py lines 16-19): `None` when
`inverse_type` is falsy (`None` or `''`), otherwise the derived config
`EdgeConfig(inverse_type, inverse_unique, bidi, type, unique)`.  The
constructor's assertion cannot fire here: a config built by
`EdgeConfig.__init__` with truthy `inverse_type` has falsy `bidi`. -/
def EdgeConfig.get_inverse (c : EdgeConfig) : Option EdgeConfig :=
  match c.inverse_type with
  | some t =>
    if t = "" then none
    else some ⟨t, c.inverse_unique, c.bidi, some c.type, c.unique⟩
  | none => none

/-- The logical edge object (`Edge` in gnb.py, lines 21-27).  `order` is
optional (`None` becomes SQL `NULL`); `data` holds a payload value on the
way in and, on edges returned by `edge_get`, the raw string read back
from the `data` column (wrapped as `.pyStr`, since the code never decodes
it). -/
structure Edge where
  oid1 : String
  oid2 : String
  type : String
  order : Option Int
  data : PyObj
deriving DecidableEq, Repr

/-- One row of the `obj` table: `(oid varchar primary key, data text)`. -/
structure ObjRow where
  oid : String
  data : String
deriving DecidableEq, Repr

/-- One row of the `edges` table:
`(oid1, oid2, type, order_, data, primary key (oid1, oid2, type))`. -/
structure EdgeRow where
  oid1 : String
  oid2 : String
  type : String
  order_ : Option Int
  data : String
deriving DecidableEq, Repr

/-- The store state: the three sqlite tables plus the in-memory
`self.configs` cache (a dict keyed by type, modelled as an association
list). -/
structure GNB where
  obj : List ObjRow
  edges : List EdgeRow
  edge_config : List EdgeConfig
  configs : List (String × EdgeConfig)
deriving DecidableEq, Repr

/-- Python dict assignment `d[k] = v` on an association list: overwrite
in place if the key is present, append otherwise.  All dicts built by the
code are keyed by a primary key, so each key occurs at most once. -/
def dictUpsert {α : Type} (d : List (String × α)) (k : String) (v : α) :
    List (String × α) :=
  if d.any (fun p => p.1 == k) then
    d.map (fun p => if p.1 == k then (k, v) else p)
  else d ++ [(k, v)]

/-- The dict built by `refresh_edge_config` (gnb.py lines 138-142) from
the `edge_config` rows. -/
def configsFromRows (rows : List EdgeConfig) : List (String × EdgeConfig) :=
  rows.foldl (fun d r => dictUpsert d r.type r) []

/-- `refresh_edge_config`: rebuild the in-memory cache from the table. -/
def refresh_edge_config (g : GNB) : GNB :=
  { g with configs := configsFromRows g.edge_config }

/-- `self.configs[type]`: dict lookup in the cache; `none` models the
`KeyError` raise. -/
def configLookup (g : GNB) (t : String) : Option EdgeConfig :=
  (g.configs.find? (fun p => p.1 == t)).map Prod.snd

/-- sqlite `insert or replace` keyed by the string primary key `key`:
replace every row carrying the new row's key in place, or append. -/
def upsertBy {α : Type} (key : α → String) (rows : List α) (x : α) :
    List α :=
  if rows.any (fun r => key r == key x) then
    rows.map (fun r => if key r == key x then x else r)
  else rows ++ [x]

/-- `insert or replace into edge_config` keyed by the `type` primary
key. -/
def configUpsert (rows : List EdgeConfig) (c : EdgeConfig) :
    List EdgeConfig :=
  upsertBy EdgeConfig.type rows c

/-- `insert or replace into obj` keyed by the `oid` primary key. -/
def objUpsert (rows : List ObjRow) (oid data : String) : List ObjRow :=
  upsertBy ObjRow.oid rows ⟨oid, data⟩

/-- `GNB(':memory:')`: empty tables, cache rebuilt from the (empty)
`edge_config` table. -/
def gnbNew : GNB := { obj := [], edges := [], edge_config := [], configs := [] }

/-- `obj_put` (gnb.py lines 77-78): upsert the JSON-encoded value. -/
def obj_put (g : GNB) (oid : String) (value : PyObj) : GNB :=
  { g with obj := objUpsert g.obj oid (jsonDumps value) }

/-- `obj_get` (gnb.py lines 73-76): select by oid, assert a row exists,
decode its data column. -/
def obj_get (g : GNB) (oid : String) : Except PyErr PyObj :=
  match g.obj.find? (fun r => r.oid == oid) with
  | none => .error (.assertNoObject oid)
  | some r =>
    match jsonLoads r.data with
    | some v => .ok v
    | none => .error .valueErrorJSON

/-- `obj_delete` (gnb.py lines 79-80). -/
def obj_delete (g : GNB) (oid : String) : GNB :=
  { g with obj := g.obj.filter (fun r => !(r.oid == oid)) }

/-- The ascending comparison used by `order by order_` in sqlite:
`NULL` sorts before every integer. -/
def orderLe : Option Int → Option Int → Bool
  | none, _ => true
  | some _, none => false
  | some x, some y => decide (x ≤ y)

theorem orderLe_refl (a : Option Int) : orderLe a a = true := by
  cases a <;> simp [orderLe]

theorem orderLe_total (a b : Option Int) :
    orderLe a b = true ∨ orderLe b a = true := by
  cases a <;> cases b <;> simp [orderLe] <;> omega

theorem orderLe_trans {a b c : Option Int} (h1 : orderLe a b = true)
    (h2 : orderLe b c = true) : orderLe a c = true := by
  cases a <;> cases b <;> cases c <;> simp_all [orderLe] <;> omega

/-- Row comparison for the `order by order_` sort. -/
def rowLe (r s : EdgeRow) : Prop := orderLe r.order_ s.order_ = true

instance : DecidableRel rowLe := fun r s =>
  inferInstanceAs (Decidable (orderLe r.order_ s.order_ = true))

instance : IsTotal EdgeRow rowLe := ⟨fun r s => orderLe_total r.order_ s.order_⟩

instance : IsTrans EdgeRow rowLe := ⟨fun _ _ _ => orderLe_trans⟩

/-- SQL `order_ >= v` : `NULL` compares as unknown, so a `NULL` order is
filtered out whenever the predicate is applied. -/
def sqlGeB (o : Option Int) (v : Int) : Bool :=
  match o with
  | none => false
  | some x => decide (v ≤ x)

/-- SQL `order_ <= v`, with the same `NULL` behaviour. -/
def sqlLeB (o : Option Int) (v : Int) : Bool :=
  match o with
  | none => false
  | some x => decide (x ≤ v)

/-- The lower bound of `edge_get` (gnb.py lines 111-113): Python's
`if start:` only adds the `order_ >= start` predicate when `start` is
truthy, so `None` and `0` both leave the bound off. -/
def startFilter (start : Option Int) (o : Option Int) : Bool :=
  match start with
  | none => true
  | some s => if s = 0 then true else sqlGeB o s

/-- The upper bound of `edge_get` (gnb.py lines 114-116), with the same
truthiness behaviour for `end`. -/
def endFilter (end_ : Option Int) (o : Option Int) : Bool :=
  match end_ with
  | none => true
  | some v => if v = 0 then true else sqlLeB o v

/-- The `where` clause of `edge_get`'s query. -/
def edgeRowMatches (oid type : String) (start end_ : Option Int)
    (r : EdgeRow) : Bool :=
  r.oid1 == oid && r.type == type && startFilter start r.order_ &&
    endFilter end_ r.order_

/-- `Edge(oid1, oid2, type, order, data)` as built by `edge_get` (gnb.py
line 122): the `data` column is the raw stored string, never decoded. -/
def rowToEdge (r : EdgeRow) : Edge :=
  ⟨r.oid1, r.oid2, r.type, r.order_, .pyStr r.data⟩

/-- `edge_get` (gnb.py lines 108-123): filter, sort ascending by
`order_` (the SQL `order by`), then build the `{oid2: Edge}` dict over
the results and return its values.  Row keys within one `(oid1, type)`
group are distinct by the table's primary key, so the dict never
overwrites and its value set is exactly the query result.  The
*enumeration order* of `.values()` is CPython 2.7's hash-table order,
which in general preserves neither the insertion order nor the query's
sort; this definition enumerates the value set in insertion order as a
canonical choice, and no theorem below depends on the enumeration order
of a multi-entry result — only on membership and on empty or singleton
results, where every enumeration coincides.  `py2SmallDictValues` below
models the real iteration order where it matters. -/
def edge_get (g : GNB) (oid type : String) (start end_ : Option Int) :
    List Edge :=
  let results :=
    List.insertionSort rowLe (g.edges.filter (edgeRowMatches oid type start end_))
  let dict := results.foldl (fun d r => dictUpsert d r.oid2 (rowToEdge r))
    ([] : List (String × Edge))
  dict.map Prod.snd

/-- `edge_get_one` (gnb.py lines 124-127): `edges.values()[0]`,
asserting the result is nonempty.  Which value is `[0]` for a
multi-entry result is dictated by CPython 2.7's dict iteration order
(see `edge_get`); the theorems below apply this function only to empty
or singleton results, where the answer is enumeration-independent. -/
def edge_get_one (g : GNB) (oid type : String) : Except PyErr Edge :=
  match edge_get g oid type none none with
  | [] => .error (.assertNoEdges oid type)
  | e :: _ => .ok e

/-- `delete from edges where oid1=? and oid2=? and type=?`. -/
def edgeDelete (rows : List EdgeRow) (oid1 oid2 type : String) :
    List EdgeRow :=
  rows.filter (fun r => !(r.oid1 == oid1 && r.oid2 == oid2 && r.type == type))

/-- `edge_remove` (gnb.py lines 98-107): look up the config (`KeyError`
when unregistered), expand to the mirror triple when `bidi` and the
inverse triple when an inverse config exists, then delete each triple.
Deletes of missing rows are silent no-ops. -/
def edge_remove (g : GNB) (oid1 oid2 type : String) : GNB × Option PyErr :=
  match configLookup g type with
  | none => (g, some (.keyError type))
  | some config =>
    let triples := [(oid1, oid2, type)]
    let triples := if config.bidi then triples ++ [(oid2, oid1, type)] else triples
    let triples :=
      match config.get_inverse with
      | some ic => triples ++ [(oid2, oid1, ic.type)]
      | none => triples
    (triples.foldl
      (fun g2 tr => { g2 with edges := edgeDelete g2.edges tr.1 tr.2.1 tr.2.2 })
      g, none)

/-- The plain `insert into edges` of `edge_add` (gnb.py line 97): sqlite
raises `IntegrityError` when a row with the same `(oid1, oid2, type)`
primary key already exists; otherwise the row is appended with the
JSON-encoded payload. -/
def edgeInsert (g : GNB) (e : Edge) : GNB × Option PyErr :=
  if g.edges.any (fun r => r.oid1 == e.oid1 && r.oid2 == e.oid2 && r.type == e.type) then
    (g, some .integrityError)
  else
    ({ g with edges := g.edges ++ [⟨e.oid1, e.oid2, e.type, e.order, jsonDumps e.data⟩] },
      none)

/-- The eviction loop of `edge_add` (gnb.py lines 94-96): remove each
pre-existing edge via the full `edge_remove`; an exception aborts the
remaining removals but keeps earlier effects. -/
def edgeRemoveAll (g : GNB) : List Edge → GNB × Option PyErr
  | [] => (g, none)
  | e :: rest =>
    match edge_remove g e.oid1 e.oid2 e.type with
    | (g2, some err) => (g2, some err)
    | (g2, none) => edgeRemoveAll g2 rest

/-- The main loop of `edge_add` (gnb.py lines 91-97) over the physical
`(edge, config)` pairs: per pair, evict all existing outgoing edges of
that type when the config is `unique`, then insert.  An exception aborts
the remaining pairs but keeps the effects already committed. -/
def edgeAddLoop (g : GNB) : List (Edge × EdgeConfig) → GNB × Option PyErr
  | [] => (g, none)
  | (e, config) :: rest =>
    let step :=
      if config.unique then
        match edgeRemoveAll g (edge_get g e.oid1 e.type none none) with
        | (g2, some err) => (g2, some err)
        | (g2, none) => edgeInsert g2 e
      else edgeInsert g e
    match step with
    | (g3, some err) => (g3, some err)
    | (g3, none) => edgeAddLoop g3 rest

/-- `edge_add` (gnb.py lines 81-97): look up the config (`KeyError` when
unregistered), build the physical edge list — the edge itself, plus the
mirrored edge of the same type when `bidi`, plus the reversed edge of the
inverse type when an inverse config exists — and run the add loop. -/
def edge_add (g : GNB) (e : Edge) : GNB × Option PyErr :=
  match configLookup g e.type with
  | none => (g, some (.keyError e.type))
  | some config =>
    let pairs := [(e, config)]
    let pairs :=
      if config.bidi then
        pairs ++ [(⟨e.oid2, e.oid1, e.type, e.order, e.data⟩, config)]
      else pairs
    let pairs :=
      match config.get_inverse with
      | some ic => pairs ++ [(⟨e.oid2, e.oid1, ic.type, e.order, e.data⟩, ic)]
      | none => pairs
    edgeAddLoop g pairs

/-- `edge_config_add` (gnb.py lines 128-137): upsert the config row and,
when an inverse config is derived, its row too, then rebuild the cache
from the table. -/
def edge_config_add (g : GNB) (config : EdgeConfig) : GNB :=
  let toWrite := [config]
  let toWrite :=
    match config.get_inverse with
    | some inv => toWrite ++ [inv]
    | none => toWrite
  let rows := toWrite.foldl configUpsert g.edge_config
  refresh_edge_config { g with edge_config := rows }

/-- Registering an edge type end to end: construct the `EdgeConfig`
(whose `__init__` may raise `InvalidConfig`) and, on success, pass it to
`edge_config_add`.  On failure the store is untouched. -/
def register (g : GNB) (type : String) (unique bidi : Bool)
    (inverse_type : Option String) (inverse_unique : Bool) :
    GNB × Option PyErr :=
  match mkEdgeConfig type unique bidi inverse_type inverse_unique with
  | .error err => (g, some err)
  | .ok c => (edge_config_add g c, none)

/-- The `(oid1, oid2, type)` primary-key invariant of the `edges` table:
no two rows share a key triple.  Every reachable state satisfies it,
since rows are only created by `edgeInsert`. -/
def EdgesWF (g : GNB) : Prop :=
  (g.edges.map (fun r => (r.oid1, r.oid2, r.type))).Nodup

instance : DecidablePred EdgesWF := fun g =>
  inferInstanceAs
    (Decidable ((g.edges.map (fun r : EdgeRow => (r.oid1, r.oid2, r.type))).Nodup))

/-- Modelled from the spec: CPython 2.7's byte-string hash (64-bit
build), which places the source's dict keys (`oid2` strings).  Per
`string_hash` in stringobject.c: `x = ord(s[0]) << 7`, then
`x = (1000003 * x) XOR byte` over the bytes (C `long` arithmetic on the
two's-complement bit pattern, here `% 2^64`), then `x = x XOR len(s)`,
with the reserved value `-1` (pattern `2^64 - 1`) mapped to `-2`.  The
keys appearing in this file are ASCII, so `Char.toNat` is the byte
value; the empty string hashes to `0` (its first "byte" is the NUL
terminator). -/
def py2StringHash (s : String) : Nat :=
  match s.data with
  | [] => 0
  | c0 :: _ =>
    let x0 := (c0.toNat <<< 7) % 2 ^ 64
    let x := s.data.foldl (fun x c => (1000003 * x % 2 ^ 64) ^^^ c.toNat) x0
    let x := x ^^^ s.data.length
    if x = 2 ^ 64 - 1 then 2 ^ 64 - 2 else x

/-- Modelled from the spec: CPython 2.7's dict probe sequence
(`lookdict` in dictobject.c) over an open-addressing table whose slot
count is a power of two.  The first probe is `hash & mask`; each further
probe takes `i = 5*i + perturb + 1` on the running unmasked index
(wrapping at the 64-bit word) with `perturb` starting at the hash and
shifted right by 5 each round, the slot being `i & mask`.  Probing stops
at an empty slot or one holding the same key; the fuel bounds the search
and is never exhausted on a table with a free slot at the sizes used
here. -/
def py2Probe {β : Type} (slots : List (Option (String × β))) (k : String) :
    Nat → Nat → Nat → Option Nat
  | 0, _, _ => none
  | fuel + 1, i, perturb =>
    let j := i &&& (slots.length - 1)
    match slots.get? j with
    | some none => some j
    | some (some p) =>
      if p.1 == k then some j
      else py2Probe slots k fuel ((5 * i + perturb + 1) % 2 ^ 64) (perturb >>> 5)
    | none => none

/-- Modelled from the spec: one CPython 2.7 dict assignment `d[k] = v`
into the slot table — probe for the key's slot and write the entry
there. -/
def py2DictInsert {β : Type} (slots : List (Option (String × β)))
    (k : String) (v : β) : List (Option (String × β)) :=
  let h := py2StringHash k
  match py2Probe slots k (slots.length + 64) (h &&& (slots.length - 1)) h with
  | some j => slots.set j (some (k, v))
  | none => slots

/-- Modelled from the spec: the `.values()` view of a small CPython 2.7
dict — an 8-slot table (valid below the resize threshold of 6 used
keys), keys assigned left to right, values read back in slot order,
which is CPython's iteration order.  This is the order the source's
`edges.values()` actually yields for a multi-entry result; compare
`edge_get`, whose enumeration is the idealized insertion order. -/
def py2SmallDictValues {β : Type} (pairs : List (String × β)) : List β :=
  ((pairs.foldl (fun slots p => py2DictInsert slots p.1 p.2)
      (List.replicate 8 none)).filterMap (fun s => s)).map Prod.snd

theorem find?_map_replace {α : Type} (key : α → String) (x : α) (rows : List α)
    (h : rows.any (fun r => key r == key x) = true) :
    (rows.map (fun r => if key r == key x then x else r)).find?
      (fun r => key r == key x) = some x := by
  induction rows with
  | nil => simp at h
  | cons r rest ih =>
    rw [List.map_cons]
    by_cases hr : key r = key x
    · rw [if_pos (by simpa using hr)]
      exact List.find?_cons_of_pos _ (by simp)
    · have hb : (key r == key x) = false := by simp [hr]
      have h' : rest.any (fun r => key r == key x) = true := by
        simpa [List.any_cons, hb] using h
      rw [if_neg (by simpa using hr), List.find?_cons_of_neg _ (by simp [hr])]
      exact ih h'

theorem find?_append_no_match {α : Type} (p : α → Bool) (rows l : List α)
    (h : rows.any p = false) : (rows ++ l).find? p = l.find? p := by
  induction rows with
  | nil => simp
  | cons r rest ih =>
    simp only [List.any_cons, Bool.or_eq_false_iff] at h
    simp [List.find?_cons, h.1, ih h.2]

theorem find?_upsertBy_self {α : Type} (key : α → String) (rows : List α)
    (x : α) :
    (upsertBy key rows x).find? (fun r => key r == key x) = some x := by
  unfold upsertBy
  by_cases h : rows.any (fun r => key r == key x) = true
  · rw [if_pos h]
    exact find?_map_replace key x rows h
  · rw [if_neg h]
    rw [find?_append_no_match _ _ _ (by simpa using h)]
    simp [List.find?_cons]

theorem obj_find_after_put (g : GNB) (oid : String) (v : PyObj) :
    (obj_put g oid v).obj.find? (fun r => r.oid == oid) = some ⟨oid, jsonDumps v⟩ := by
  have h := find?_upsertBy_self ObjRow.oid g.obj ⟨oid, jsonDumps v⟩
  simpa [obj_put, objUpsert] using h

/-- The object store round-trips payloads: `obj_put` encodes with
`json.dumps` and `obj_get` decodes with `json.loads`. -/
theorem obj_put_obj_get (g : GNB) (oid : String) (v : PyObj) :
    obj_get (obj_put g oid v) oid = .ok v := by
  simp [obj_get, obj_find_after_put, jsonLoads_jsonDumps]

/-- **C1** — counterexample.  The claim says `edge_add` upserts by the
`(from,to,type)` key for *every* registered edge type: re-adding an edge
with an existing key "replaces that row … and succeeds, rather than
failing".  With the plain (non-unique) registered type `"t"` and the row
`("a","b","t")` already present, the second `edge_add` raises
`IntegrityError` instead of succeeding: line 97 is a plain `insert into
edges`, not `insert or replace`. -/
theorem c1_upsert_counterexample :
    (edge_add (edge_add (edge_config_add gnbNew ⟨"t", false, false, none, false⟩)
        ⟨"a", "b", "t", some 1, .pyNone⟩).1 ⟨"a", "b", "t", some 2, .pyStr "x"⟩).2
      = some .integrityError := by
  rfl

/-- **C1** (amended).  `edge_add` inserts the physical row with a plain
`insert`, so its behaviour on an existing `(from,to,type)` key depends on
the config: for a non-unique type the call fails with `IntegrityError`
and leaves the store unchanged, while for a `unique` type the eviction
step removes the existing outgoing edges first, so the re-add succeeds
and the key holds the new order and payload. -/
theorem c1_edge_add_insert_behavior (a b t : String) (o1 o2 : Option Int)
    (d1 d2 : PyObj) :
    (edge_add (edge_config_add gnbNew ⟨t, false, false, none, false⟩)
        ⟨a, b, t, o1, d1⟩).2 = none ∧
    edge_add (edge_add (edge_config_add gnbNew ⟨t, false, false, none, false⟩)
        ⟨a, b, t, o1, d1⟩).1 ⟨a, b, t, o2, d2⟩
      = ((edge_add (edge_config_add gnbNew ⟨t, false, false, none, false⟩)
          ⟨a, b, t, o1, d1⟩).1, some .integrityError) ∧
    (edge_add (edge_config_add gnbNew ⟨t, true, false, none, false⟩)
        ⟨a, b, t, o1, d1⟩).2 = none ∧
    (edge_add (edge_add (edge_config_add gnbNew ⟨t, true, false, none, false⟩)
        ⟨a, b, t, o1, d1⟩).1 ⟨a, b, t, o2, d2⟩).2 = none ∧
    (edge_add (edge_add (edge_config_add gnbNew ⟨t, true, false, none, false⟩)
        ⟨a, b, t, o1, d1⟩).1 ⟨a, b, t, o2, d2⟩).1.edges
      = [⟨a, b, t, o2, jsonDumps d2⟩] := by
  simp [edge_config_add, EdgeConfig.get_inverse, configUpsert, upsertBy,
    configsFromRows, dictUpsert, refresh_edge_config, gnbNew, edge_add,
    configLookup, edgeAddLoop, edge_get, edgeRowMatches, startFilter, endFilter,
    rowToEdge, edgeRemoveAll, edge_remove, edgeDelete, edgeInsert]

/-- **C2** (confirmed).  Uniqueness property: for a type registered with
`unique=true` and distinct objects `a`, `b`, `c`, after `edge_add(a,b,T)`
then `edge_add(a,c,T)`, both calls succeed and `edge_get(a,T)` holds
exactly the single entry for `c` — the edge to `b` was removed by the
full `edge_remove` during the second add's eviction step. -/
theorem c2_unique_property (a b c t : String) (o1 o2 : Option Int)
    (d1 d2 : PyObj) (hab : a ≠ b) (hac : a ≠ c) (hbc : b ≠ c) :
    (edge_add (edge_config_add gnbNew ⟨t, true, false, none, false⟩)
        ⟨a, b, t, o1, d1⟩).2 = none ∧
    (edge_add (edge_add (edge_config_add gnbNew ⟨t, true, false, none, false⟩)
        ⟨a, b, t, o1, d1⟩).1 ⟨a, c, t, o2, d2⟩).2 = none ∧
    edge_get (edge_add (edge_add (edge_config_add gnbNew ⟨t, true, false, none, false⟩)
        ⟨a, b, t, o1, d1⟩).1 ⟨a, c, t, o2, d2⟩).1 a t none none
      = [⟨a, c, t, o2, .pyStr (jsonDumps d2)⟩] := by
  simp [edge_config_add, EdgeConfig.get_inverse, configUpsert, upsertBy,
    configsFromRows, dictUpsert, refresh_edge_config, gnbNew, edge_add,
    configLookup, edgeAddLoop, edge_get, edgeRowMatches, startFilter, endFilter,
    rowToEdge, edgeRemoveAll, edge_remove, edgeDelete, edgeInsert]

theorem c2_unique_property_witness :
    (("a" : String) ≠ "b" ∧ ("a" : String) ≠ "c" ∧ ("b" : String) ≠ "c") ∧
    ((edge_add (edge_config_add gnbNew ⟨"t", true, false, none, false⟩)
        ⟨"a", "b", "t", some 1, .pyNone⟩).2 = none ∧
    (edge_add (edge_add (edge_config_add gnbNew ⟨"t", true, false, none, false⟩)
        ⟨"a", "b", "t", some 1, .pyNone⟩).1 ⟨"a", "c", "t", some 2, .pyNone⟩).2 = none ∧
    edge_get (edge_add (edge_add (edge_config_add gnbNew ⟨"t", true, false, none, false⟩)
        ⟨"a", "b", "t", some 1, .pyNone⟩).1 ⟨"a", "c", "t", some 2, .pyNone⟩).1 "a" "t" none none
      = [⟨"a", "c", "t", some 2, .pyStr (jsonDumps .pyNone)⟩]) :=
  ⟨⟨by decide, by decide, by decide⟩,
    c2_unique_property "a" "b" "c" "t" (some 1) (some 2) .pyNone .pyNone
      (by decide) (by decide) (by decide)⟩

/-- **C3** (confirmed).  Bidi property: for a type registered with
`bidi=true`, after `edge_add(a,b,T)` the edge is visible from both ends
(`edge_get_one(a,T).oid2 = b` and `edge_get_one(b,T).oid2 = a`), and a
subsequent `edge_remove(a,b,T)` empties both `edge_get(a,T)` and
`edge_get(b,T)`.  This holds for all objects `a`, `b`, including `a = b`
(where the mirror insert raises `IntegrityError` but the stated
post-state still holds, the first insert having already committed). -/
theorem c3_bidi_property (a b t : String) (o : Option Int) (d : PyObj) :
    edge_get_one (edge_add (edge_config_add gnbNew ⟨t, false, true, none, false⟩)
        ⟨a, b, t, o, d⟩).1 a t = .ok ⟨a, b, t, o, .pyStr (jsonDumps d)⟩ ∧
    edge_get_one (edge_add (edge_config_add gnbNew ⟨t, false, true, none, false⟩)
        ⟨a, b, t, o, d⟩).1 b t = .ok ⟨b, a, t, o, .pyStr (jsonDumps d)⟩ ∧
    edge_get (edge_remove (edge_add (edge_config_add gnbNew ⟨t, false, true, none, false⟩)
        ⟨a, b, t, o, d⟩).1 a b t).1 a t none none = [] ∧
    edge_get (edge_remove (edge_add (edge_config_add gnbNew ⟨t, false, true, none, false⟩)
        ⟨a, b, t, o, d⟩).1 a b t).1 b t none none = [] := by
  by_cases hab : a = b
  · subst hab
    simp [edge_config_add, EdgeConfig.get_inverse, configUpsert, upsertBy,
      configsFromRows, dictUpsert, refresh_edge_config, gnbNew, edge_add,
      configLookup, edgeAddLoop, edge_get, edge_get_one, edgeRowMatches,
      startFilter, endFilter, rowToEdge, edgeRemoveAll, edge_remove, edgeDelete,
      edgeInsert]
  · simp [edge_config_add, EdgeConfig.get_inverse, configUpsert, upsertBy,
      configsFromRows, dictUpsert, refresh_edge_config, gnbNew, edge_add,
      configLookup, edgeAddLoop, edge_get, edge_get_one, edgeRowMatches,
      startFilter, endFilter, rowToEdge, edgeRemoveAll, edge_remove, edgeDelete,
      edgeInsert, hab, Ne.symm hab]

/-- **C4** — counterexample.  The claim quantifies over all objects
`a`, `b`.  Taking `a = b = "x"` with `T = "t"`, `T2 = "u"`: after
`edge_add("x","x","t")` the inverse row `("x","x","u")` exists, so
`edge_get("x","u")` — the claim's `edge_get(a,T2)` — is *not* empty. -/
theorem c4_inverse_counterexample :
    edge_get (edge_add (edge_config_add gnbNew ⟨"t", false, false, some "u", false⟩)
        ⟨"x", "x", "t", none, .pyNone⟩).1 "x" "u" none none ≠ [] := by
  decide

/-- **C4** (amended).  Inverse property, for *distinct* objects `a ≠ b`
and a distinct, nonempty inverse type name `T2 ∉ {T, ""}`: after
`edge_add(a,b,T)`, `edge_get_one(a,T)` yields the edge to `b`,
`edge_get_one(b,T2)` yields the edge to `a`, and `edge_get(a,T2)` and
`edge_get(b,T)` are empty; a subsequent `edge_remove(a,b,T)` empties all
four of `edge_get(a,T)`, `edge_get(b,T)`, `edge_get(a,T2)`,
`edge_get(b,T2)`. -/
theorem c4_inverse_property (a b t t2 : String) (o : Option Int) (d : PyObj)
    (hab : a ≠ b) (htt : t ≠ t2) (ht2 : t2 ≠ "") :
    edge_get_one (edge_add (edge_config_add gnbNew ⟨t, false, false, some t2, false⟩)
        ⟨a, b, t, o, d⟩).1 a t = .ok ⟨a, b, t, o, .pyStr (jsonDumps d)⟩ ∧
    edge_get_one (edge_add (edge_config_add gnbNew ⟨t, false, false, some t2, false⟩)
        ⟨a, b, t, o, d⟩).1 b t2 = .ok ⟨b, a, t2, o, .pyStr (jsonDumps d)⟩ ∧
    edge_get (edge_add (edge_config_add gnbNew ⟨t, false, false, some t2, false⟩)
        ⟨a, b, t, o, d⟩).1 a t2 none none = [] ∧
    edge_get (edge_add (edge_config_add gnbNew ⟨t, false, false, some t2, false⟩)
        ⟨a, b, t, o, d⟩).1 b t none none = [] ∧
    edge_get (edge_remove (edge_add (edge_config_add gnbNew ⟨t, false, false, some t2, false⟩)
        ⟨a, b, t, o, d⟩).1 a b t).1 a t none none = [] ∧
    edge_get (edge_remove (edge_add (edge_config_add gnbNew ⟨t, false, false, some t2, false⟩)
        ⟨a, b, t, o, d⟩).1 a b t).1 b t none none = [] ∧
    edge_get (edge_remove (edge_add (edge_config_add gnbNew ⟨t, false, false, some t2, false⟩)
        ⟨a, b, t, o, d⟩).1 a b t).1 a t2 none none = [] ∧
    edge_get (edge_remove (edge_add (edge_config_add gnbNew ⟨t, false, false, some t2, false⟩)
        ⟨a, b, t, o, d⟩).1 a b t).1 b t2 none none = [] := by
  simp [edge_config_add, EdgeConfig.get_inverse, configUpsert, upsertBy,
    configsFromRows, dictUpsert, refresh_edge_config, gnbNew, edge_add,
    configLookup, edgeAddLoop, edge_get, edge_get_one, edgeRowMatches,
    startFilter, endFilter, rowToEdge, edgeRemoveAll, edge_remove, edgeDelete,
    edgeInsert, hab, Ne.symm hab, htt, Ne.symm htt, ht2]

theorem c4_inverse_property_witness :
    (("a" : String) ≠ "b" ∧ ("t" : String) ≠ "u" ∧ ("u" : String) ≠ "") ∧
    edge_get_one (edge_add (edge_config_add gnbNew ⟨"t", false, false, some "u", false⟩)
        ⟨"a", "b", "t", none, .pyNone⟩).1 "a" "t"
      = .ok ⟨"a", "b", "t", none, .pyStr (jsonDumps .pyNone)⟩ :=
  ⟨⟨by decide, by decide, by decide⟩,
    (c4_inverse_property "a" "b" "t" "u" none .pyNone
      (by decide) (by decide) (by decide)).1⟩

/-- **C9** (confirmed).  Config validation: constructing an `EdgeConfig`
with `bidi=true` and a (truthy) `inverse_type` set fails the constructor
assertion — the spec's `InvalidConfig` — before `edge_config_add` can
run, so registration returns the error and the store is exactly the one
passed in: both the persisted `edge_config` table and the in-memory cache
are unchanged. -/
theorem c9_invalid_config (g : GNB) (t t2 : String) (u iu : Bool)
    (ht2 : t2 ≠ "") :
    register g t u true (some t2) iu = (g, some .assertInvalidConfig) := by
  simp [register, mkEdgeConfig, strTruthy, ht2]

theorem c9_invalid_config_witness :
    (("u" : String) ≠ "") ∧
    register gnbNew "t" false true (some "u") false
      = (gnbNew, some .assertInvalidConfig) :=
  ⟨by decide, c9_invalid_config gnbNew "t" "u" false false (by decide)⟩

/-- **C10** (confirmed).  Payload-encoding asymmetry: an edge added with
payload `d` is returned by `edge_get` / `edge_get_one` carrying the
JSON-encoded *string* of `d` as its payload (`edge_add` stores
`json.dumps(edge.data)` and `edge_get` returns the raw column), whereas
the object store round-trips: `obj_put(id,v)` then `obj_get(id)` yields
`v` itself (`obj_get` applies `json.loads`). -/
theorem c10_payload_asymmetry (a b t oid : String) (o : Option Int)
    (d v : PyObj) (g : GNB) :
    edge_get (edge_add (edge_config_add gnbNew ⟨t, false, false, none, false⟩)
        ⟨a, b, t, o, d⟩).1 a t none none
      = [⟨a, b, t, o, .pyStr (jsonDumps d)⟩] ∧
    edge_get_one (edge_add (edge_config_add gnbNew ⟨t, false, false, none, false⟩)
        ⟨a, b, t, o, d⟩).1 a t = .ok ⟨a, b, t, o, .pyStr (jsonDumps d)⟩ ∧
    obj_get (obj_put g oid v) oid = .ok v := by
  refine ⟨?_, ?_, obj_put_obj_get g oid v⟩ <;>
    simp [edge_config_add, EdgeConfig.get_inverse, configUpsert, upsertBy,
      configsFromRows, dictUpsert, refresh_edge_config, gnbNew, edge_add,
      configLookup, edgeAddLoop, edge_get, edge_get_one, edgeRowMatches,
      startFilter, endFilter, rowToEdge, edgeRemoveAll, edge_remove, edgeDelete,
      edgeInsert]

/-- **C7** — counterexample.  The claim says *every* edge operation on an
unregistered type fails with `UnknownEdgeType` and is "never a silently
empty result".  But `edge_get` never consults the config registry: on the
fresh store, where `"t"` is unregistered, `edge_get` returns the silently
empty result `[]`, and `edge_get_one` fails with the `NoSuchEdge`
assertion (empty result), not with `UnknownEdgeType`. -/
theorem c7_unknown_type_counterexample :
    configLookup gnbNew "t" = none ∧
    edge_get gnbNew "a" "t" none none = [] ∧
    edge_get_one gnbNew "a" "t" = .error (.assertNoEdges "a" "t") := by
  refine ⟨rfl, rfl, rfl⟩

/-- **C7** (amended).  Only the mutating edge operations check the type:
`edge_add` and `edge_remove` on an unregistered type fail with `KeyError`
(the spec's `UnknownEdgeType`) leaving the store unchanged, while
`edge_get` performs no registry lookup and silently returns its query
result — empty when no matching rows exist — and `edge_get_one` then
fails with the `NoSuchEdge` assertion instead. -/
theorem c7_unknown_type_errors (g : GNB) (a b t : String) (o : Option Int)
    (d : PyObj) (hcfg : configLookup g t = none)
    (hrows : ∀ r ∈ g.edges, ¬(r.oid1 = a ∧ r.type = t)) :
    edge_add g ⟨a, b, t, o, d⟩ = (g, some (.keyError t)) ∧
    edge_remove g a b t = (g, some (.keyError t)) ∧
    edge_get g a t none none = [] ∧
    edge_get_one g a t = .error (.assertNoEdges a t) := by
  have hfilter : g.edges.filter (edgeRowMatches a t none none) = [] := by
    refine List.filter_eq_nil_iff.2 ?_
    intro r hr
    have := hrows r hr
    simp [edgeRowMatches, startFilter, endFilter]
    intro h1 h2
    exact absurd ⟨h1, h2⟩ this
  have hget : edge_get g a t none none = [] := by
    simp [edge_get, hfilter]
  refine ⟨?_, ?_, hget, ?_⟩
  · simp [edge_add, hcfg]
  · simp [edge_remove, hcfg]
  · simp [edge_get_one, hget]

theorem c7_unknown_type_errors_witness :
    (configLookup gnbNew "t" = none ∧
      ∀ r ∈ gnbNew.edges, ¬(r.oid1 = "a" ∧ r.type = "t")) ∧
    edge_add gnbNew ⟨"a", "b", "t", none, .pyNone⟩
      = (gnbNew, some (.keyError "t")) :=
  ⟨⟨by decide, by decide⟩,
    (c7_unknown_type_errors gnbNew "a" "b" "t" none .pyNone
      (by decide) (by decide)).1⟩

theorem find?_upsertBy_other {α : Type} (key : α → String) (rows : List α)
    (x : α) (k : String) (hk : k ≠ key x) :
    (upsertBy key rows x).find? (fun r => key r == k)
      = rows.find? (fun r => key r == k) := by
  unfold upsertBy
  by_cases h : rows.any (fun r => key r == key x) = true
  · rw [if_pos h]
    clear h
    induction rows with
    | nil => simp
    | cons r rest ih =>
      rw [List.map_cons]
      by_cases hr : key r = key x
      · rw [if_pos (by simpa using hr),
          List.find?_cons_of_neg _ (by simp [Ne.symm hk]),
          List.find?_cons_of_neg _ (by simp [hr, Ne.symm hk])]
        exact ih
      · rw [if_neg (by simpa using hr)]
        by_cases hrk : key r = k
        · rw [List.find?_cons_of_pos _ (by simp [hrk]),
            List.find?_cons_of_pos _ (by simp [hrk])]
        · rw [List.find?_cons_of_neg _ (by simp [hrk]),
            List.find?_cons_of_neg _ (by simp [hrk])]
          exact ih
  · rw [if_neg h, List.find?_append]
    simp [Ne.symm hk]

theorem nodup_keys_upsertBy {α : Type} (key : α → String) (rows : List α)
    (x : α) (h : (rows.map key).Nodup) :
    ((upsertBy key rows x).map key).Nodup := by
  unfold upsertBy
  by_cases ha : rows.any (fun r => key r == key x) = true
  · rw [if_pos ha]
    have heq : (rows.map (fun r => if key r == key x then x else r)).map key
        = rows.map key := by
      rw [List.map_map]
      exact List.map_congr_left (fun r _ => by
        by_cases hr : key r = key x <;> simp [hr])
    rw [heq]
    exact h
  · rw [if_neg ha, List.map_append]
    have hnx : key x ∉ rows.map key := by
      intro hmem
      rcases List.mem_map.1 hmem with ⟨r, hr, he⟩
      exact absurd (List.any_eq_true.2 ⟨r, hr, by simp [he]⟩) ha
    simp [List.nodup_append, h, hnx]

theorem upsertBy_key_unique {α : Type} (key : α → String) (rows : List α)
    (x : α) : ∀ r ∈ upsertBy key rows x, key r = key x → r = x := by
  unfold upsertBy
  by_cases ha : rows.any (fun r => key r == key x) = true
  · rw [if_pos ha]
    intro r hr hkr
    rcases List.mem_map.1 hr with ⟨r0, hr0, he⟩
    by_cases h0 : key r0 = key x
    · rw [← he]; simp [h0]
    · rw [← he] at hkr
      simp [h0] at hkr
  · rw [if_neg ha]
    intro r hr hkr
    rcases List.mem_append.1 hr with hmem | hmem
    · exact absurd (List.any_eq_true.2 ⟨r, hmem, by simp [hkr]⟩) ha
    · simpa using hmem

theorem upsertBy_key_mem {α : Type} (key : α → String) (rows : List α)
    (x : α) : ∃ r ∈ upsertBy key rows x, key r = key x := by
  unfold upsertBy
  by_cases ha : rows.any (fun r => key r == key x) = true
  · rw [if_pos ha]
    rcases List.any_eq_true.1 ha with ⟨r0, hr0, hm⟩
    exact ⟨x, List.mem_map.2 ⟨r0, hr0, by simp [hm]⟩, rfl⟩
  · rw [if_neg ha]
    exact ⟨x, by simp, rfl⟩

theorem upsertBy_preserve_unique {α : Type} (key : α → String) (rows : List α)
    (x y : α) (hxy : key y ≠ key x)
    (h : ∀ r ∈ rows, key r = key x → r = x) :
    ∀ r ∈ upsertBy key rows y, key r = key x → r = x := by
  unfold upsertBy
  by_cases ha : rows.any (fun r => key r == key y) = true
  · rw [if_pos ha]
    intro r hr hkr
    rcases List.mem_map.1 hr with ⟨r0, hr0, he⟩
    by_cases h0 : key r0 = key y
    · rw [← he] at hkr
      simp [h0] at hkr
      exact absurd hkr hxy
    · rw [← he] at hkr ⊢
      simp [h0] at hkr ⊢
      exact h r0 hr0 hkr
  · rw [if_neg ha]
    intro r hr hkr
    rcases List.mem_append.1 hr with hmem | hmem
    · exact h r hmem hkr
    · have : r = y := by simpa using hmem
      rw [this] at hkr
      exact absurd hkr hxy

theorem upsertBy_preserve_mem {α : Type} (key : α → String) (rows : List α)
    (x y : α) (hxy : key y ≠ key x) (h : ∃ r ∈ rows, key r = key x) :
    ∃ r ∈ upsertBy key rows y, key r = key x := by
  obtain ⟨r, hr, hk⟩ := h
  unfold upsertBy
  by_cases ha : rows.any (fun r => key r == key y) = true
  · rw [if_pos ha]
    refine ⟨r, List.mem_map.2 ⟨r, hr, ?_⟩, hk⟩
    have : key r ≠ key y := by rw [hk]; exact Ne.symm hxy
    simp [this]
  · rw [if_neg ha]
    exact ⟨r, List.mem_append.2 (Or.inl hr), hk⟩

theorem upsertBy_id {α : Type} (key : α → String) (rows : List α) (x : α)
    (hu : ∀ r ∈ rows, key r = key x → r = x)
    (hm : ∃ r ∈ rows, key r = key x) :
    upsertBy key rows x = rows := by
  unfold upsertBy
  obtain ⟨r0, hr0, hk⟩ := hm
  rw [if_pos (List.any_eq_true.2 ⟨r0, hr0, by simp [hk]⟩)]
  have hpt : ∀ r ∈ rows, (if key r == key x then x else r) = r := by
    intro r hr
    by_cases h : key r = key x
    · simp [h, (hu r hr h).symm]
    · simp [h]
  calc rows.map (fun r => if key r == key x then x else r)
      = rows.map id := List.map_congr_left (by simpa using hpt)
    _ = rows := List.map_id rows

theorem foldl_dictUpsert {α β : Type} (key : α → String) (val : α → β) :
    ∀ (l : List α) (init : List (String × β)),
      (∀ r ∈ l, init.any (fun p => p.1 == key r) = false) →
      (l.map key).Nodup →
      l.foldl (fun d r => dictUpsert d (key r) (val r)) init
        = init ++ l.map (fun r => (key r, val r)) := by
  intro l
  induction l with
  | nil => intro init _ _; simp
  | cons r rest ih =>
    intro init h hn
    rw [List.map_cons] at hn
    have hcons := List.nodup_cons.1 hn
    have h0 : init.any (fun p => p.1 == key r) = false := h r (by simp)
    have hstep : dictUpsert init (key r) (val r) = init ++ [(key r, val r)] := by
      unfold dictUpsert
      rw [if_neg (by simp [h0])]
    rw [List.foldl_cons, hstep, ih (init ++ [(key r, val r)]) ?_ hcons.2]
    · simp
    · intro r' hr'
      rw [List.any_append]
      have h1 := h r' (by simp [hr'])
      have hne : key r ≠ key r' := by
        intro he
        exact hcons.1 (he ▸ List.mem_map_of_mem key hr')
      simp [h1, hne]

theorem find?_pairs {α : Type} (key : α → String) (l : List α) (k : String) :
    ((l.map (fun r => (key r, r))).find? (fun p => p.1 == k)).map Prod.snd
      = l.find? (fun r => key r == k) := by
  induction l with
  | nil => simp
  | cons r rest ih =>
    rw [List.map_cons]
    by_cases h : key r = k
    · rw [List.find?_cons_of_pos _ (by simp [h]),
        List.find?_cons_of_pos _ (by simp [h])]
      simp
    · rw [List.find?_cons_of_neg _ (by simp [h]),
        List.find?_cons_of_neg _ (by simp [h])]
      exact ih

theorem configsFromRows_lookup (rows : List EdgeConfig)
    (hn : (rows.map EdgeConfig.type).Nodup) (k : String) :
    ((configsFromRows rows).find? (fun p => p.1 == k)).map Prod.snd
      = rows.find? (fun r => r.type == k) := by
  have h1 : configsFromRows rows = rows.map (fun r => (r.type, r)) := by
    have h2 := foldl_dictUpsert EdgeConfig.type (fun r => r) rows [] (by simp) hn
    simpa [configsFromRows] using h2
  rw [h1]
  exact find?_pairs EdgeConfig.type rows k

theorem edge_get_keys_nodup (g : GNB) (oid t : String) (s e : Option Int)
    (h : EdgesWF g) :
    ((List.insertionSort rowLe
        (g.edges.filter (edgeRowMatches oid t s e))).map EdgeRow.oid2).Nodup := by
  have htri : ((g.edges.filter (edgeRowMatches oid t s e)).map
      (fun r => (r.oid1, r.oid2, r.type))).Nodup :=
    List.Nodup.sublist
      (List.Sublist.map _ (List.filter_sublist g.edges)) h
  have hcong : (g.edges.filter (edgeRowMatches oid t s e)).map
        (fun r => (r.oid1, r.oid2, r.type))
      = (g.edges.filter (edgeRowMatches oid t s e)).map
        (fun r => (oid, r.oid2, t)) := by
    refine List.map_congr_left ?_
    intro r hr
    have hm := (List.mem_filter.1 hr).2
    simp only [edgeRowMatches, Bool.and_eq_true, beq_iff_eq] at hm
    rw [hm.1.1.1, hm.1.1.2]
  have h2 : (((g.edges.filter (edgeRowMatches oid t s e)).map
      EdgeRow.oid2).map (fun x => (oid, x, t))).Nodup := by
    rw [List.map_map]
    exact hcong ▸ htri
  have hFo2 : ((g.edges.filter (edgeRowMatches oid t s e)).map
      EdgeRow.oid2).Nodup := List.Nodup.of_map _ h2
  exact ((List.perm_insertionSort rowLe _).map EdgeRow.oid2).nodup_iff.2 hFo2

theorem edge_get_eq_map (g : GNB) (oid t : String) (s e : Option Int)
    (h : EdgesWF g) :
    edge_get g oid t s e
      = (List.insertionSort rowLe
          (g.edges.filter (edgeRowMatches oid t s e))).map rowToEdge := by
  have hn := edge_get_keys_nodup g oid t s e h
  have hb := foldl_dictUpsert EdgeRow.oid2 rowToEdge
    (List.insertionSort rowLe (g.edges.filter (edgeRowMatches oid t s e)))
    [] (by simp) hn
  have hb' : (List.insertionSort rowLe
        (g.edges.filter (edgeRowMatches oid t s e))).foldl
        (fun d r => dictUpsert d r.oid2 (rowToEdge r)) []
      = (List.insertionSort rowLe
          (g.edges.filter (edgeRowMatches oid t s e))).map
          (fun r => (r.oid2, rowToEdge r)) := by
    simpa using hb
  simp only [edge_get]
  rw [hb', List.map_map]
  rfl

/-- **C5** — counterexample.  The claim says supplying `start = 0` still
filters to `order >= 0`.  But `edge_get` guards each bound with Python
truthiness (`if start:`), and `0` is falsy, so the bound is silently
dropped: with a stored edge of order `-1`, `edge_get(a, t, 0, None)`
returns that edge even though `-1 < 0`. -/
theorem c5_range_counterexample :
    edge_get (edge_add (edge_config_add gnbNew ⟨"t", false, false, none, false⟩)
        ⟨"a", "b", "t", some (-1), .pyNone⟩).1 "a" "t" (some 0) none
      = [⟨"a", "b", "t", some (-1), .pyStr "null"⟩] := by
  rfl

/-- **C5** (amended).  Range filtering of `edge_get`: a supplied bound is
applied only when it is truthy — `start = 0` or `end = 0` behave exactly
like an absent bound (Python's `if start:` / `if end:`) — and a `NULL`
order row is excluded by any applied bound.  Subject to that, for any
state satisfying the `(from,to,type)` primary-key invariant, the result
contains exactly the stored edges with `from = oid` and the given type
passing the effective bound predicates.  The underlying SQL query is
sorted ascending by `order`, but the code returns a Python 2 dict whose
iteration order is hash-table order, so no ordering of the *returned*
collection is claimed. -/
theorem c5_range_filtering (g : GNB) (oid t : String) (s e : Option Int)
    (h : EdgesWF g) :
    ∀ ed, ed ∈ edge_get g oid t s e ↔
      ∃ r ∈ g.edges, r.oid1 = oid ∧ r.type = t ∧
        startFilter s r.order_ = true ∧ endFilter e r.order_ = true ∧
        ed = rowToEdge r := by
  intro ed
  rw [edge_get_eq_map g oid t s e h]
  simp only [List.mem_map, List.mem_insertionSort, List.mem_filter,
    edgeRowMatches, Bool.and_eq_true, beq_iff_eq]
  constructor
  · rintro ⟨r, ⟨hr, ⟨⟨⟨h1, h2⟩, h3⟩, h4⟩⟩, he⟩
    exact ⟨r, hr, h1, h2, h3, h4, he.symm⟩
  · rintro ⟨r, hr, h1, h2, h3, h4, he⟩
    exact ⟨r, ⟨hr, ⟨⟨⟨h1, h2⟩, h3⟩, h4⟩⟩, he.symm⟩

theorem c5_range_filtering_witness :
    EdgesWF (edge_add (edge_add (edge_config_add gnbNew ⟨"t", false, false, none, false⟩)
        ⟨"a", "b", "t", some 1, .pyNone⟩).1 ⟨"a", "c", "t", some 10, .pyNone⟩).1 ∧
    (∀ ed, ed ∈ edge_get
        (edge_add (edge_add (edge_config_add gnbNew ⟨"t", false, false, none, false⟩)
          ⟨"a", "b", "t", some 1, .pyNone⟩).1 ⟨"a", "c", "t", some 10, .pyNone⟩).1
        "a" "t" none (some 5) ↔
      ∃ r ∈ (edge_add (edge_add (edge_config_add gnbNew ⟨"t", false, false, none, false⟩)
          ⟨"a", "b", "t", some 1, .pyNone⟩).1 ⟨"a", "c", "t", some 10, .pyNone⟩).1.edges,
        r.oid1 = "a" ∧ r.type = "t" ∧
        startFilter none r.order_ = true ∧ endFilter (some 5) r.order_ = true ∧
        ed = rowToEdge r) :=
  ⟨by decide,
    c5_range_filtering
      (edge_add (edge_add (edge_config_add gnbNew ⟨"t", false, false, none, false⟩)
        ⟨"a", "b", "t", some 1, .pyNone⟩).1 ⟨"a", "c", "t", some 10, .pyNone⟩).1
      "a" "t" none (some 5) (by decide)⟩

/-- **C6** — the failing input, evaluated.  The claim (and the spec's
evident intent, witnessed by the otherwise-pointless `order by order_`
at gnb.py line 118) is that `edge_get_one` returns the lowest-order
edge.  With edges `a→b (order 1)` and `a→c (order 10)`: the SQL query
returns the rows sorted `b` before `c` (first conjunct), but the code
then packs them into a plain Python 2 dict keyed by `oid2` and takes
`values()[0]`; under CPython 2.7's hash iteration order, key `"c"` lands
in slot 2 and `"b"` in slot 3 of the 8-slot table, so the values are
enumerated `c` before `b` (second conjunct) and `edge_get_one` returns
the order-10 edge — not the lowest-order one the claim requires. -/
theorem c6_lowest_order_failing_input :
    List.insertionSort rowLe
        ((edge_add (edge_add (edge_config_add gnbNew ⟨"t", false, false, none, false⟩)
            ⟨"a", "b", "t", some 1, .pyNone⟩).1
          ⟨"a", "c", "t", some 10, .pyNone⟩).1.edges.filter
          (edgeRowMatches "a" "t" none none))
      = [⟨"a", "b", "t", some 1, "null"⟩, ⟨"a", "c", "t", some 10, "null"⟩] ∧
    py2SmallDictValues
        [("b", rowToEdge ⟨"a", "b", "t", some 1, "null"⟩),
         ("c", rowToEdge ⟨"a", "c", "t", some 10, "null"⟩)]
      = [⟨"a", "c", "t", some 10, .pyStr "null"⟩,
         ⟨"a", "b", "t", some 1, .pyStr "null"⟩] := by
  exact ⟨by decide, by decide⟩

/-- **C8** — counterexample.  The claim quantifies over every config with
`inverse_type` set, including a self-inverse one (`inverse_type = type`).
Registering `c = ⟨"t", unique=true, bidi=false, inverse_type="t",
inverse_unique=false⟩` writes `c` and then its derived inverse to the
*same* `type` primary key, so the derived row wins: lookup of `"t"`
returns the derived config, not the registered `c` — "lookup of each
type returns the corresponding config" fails. -/
theorem c8_self_inverse_counterexample :
    configLookup (edge_config_add gnbNew ⟨"t", true, false, some "t", false⟩) "t"
      = some ⟨"t", false, false, some "t", true⟩ ∧
    (⟨"t", false, false, some "t", true⟩ : EdgeConfig)
      ≠ ⟨"t", true, false, some "t", false⟩ := by
  exact ⟨rfl, by decide⟩

/-- **C8** (amended).  Derived inverse registration, for an inverse type
name `T2` that is nonempty and *distinct from* `c.type`: registering `c`
(with `inverse_type = T2` and hence `bidi = false`, by the constructor
invariant) into any store whose config table satisfies its `type`
primary-key invariant also registers the derived config
`⟨T2, c.inverse_unique, false, c.type, c.unique⟩`; lookup of each type
through the rebuilt cache returns the corresponding config, and
registering `c` a second time is idempotent (upsert keyed by type) — the
whole store state is unchanged. -/
theorem c8_derived_inverse_registration (g : GNB) (c : EdgeConfig)
    (t2 : String) (hinv : c.inverse_type = some t2) (hb : c.bidi = false)
    (ht2 : t2 ≠ "") (htt : t2 ≠ c.type)
    (hwf : (g.edge_config.map EdgeConfig.type).Nodup) :
    configLookup (edge_config_add g c) c.type = some c ∧
    configLookup (edge_config_add g c) t2
      = some ⟨t2, c.inverse_unique, false, some c.type, c.unique⟩ ∧
    edge_config_add (edge_config_add g c) c = edge_config_add g c := by
  have hinv' : c.get_inverse
      = some ⟨t2, c.inverse_unique, false, some c.type, c.unique⟩ := by
    rw [EdgeConfig.get_inverse, hinv]
    simp [ht2, ← hb]
  set inv : EdgeConfig := ⟨t2, c.inverse_unique, false, some c.type, c.unique⟩
    with hinvdef
  have hadd : ∀ g' : GNB, edge_config_add g' c =
      { g' with
        edge_config := configUpsert (configUpsert g'.edge_config c) inv,
        configs :=
          configsFromRows (configUpsert (configUpsert g'.edge_config c) inv) } := by
    intro g'
    simp [edge_config_add, hinv', refresh_edge_config]
  have hxy : EdgeConfig.type inv ≠ EdgeConfig.type c := htt
  have hn1 : ((configUpsert g.edge_config c).map EdgeConfig.type).Nodup :=
    nodup_keys_upsertBy EdgeConfig.type g.edge_config c hwf
  have hn2 : ((configUpsert (configUpsert g.edge_config c) inv).map
      EdgeConfig.type).Nodup :=
    nodup_keys_upsertBy EdgeConfig.type (configUpsert g.edge_config c) inv hn1
  refine ⟨?_, ?_, ?_⟩
  · rw [hadd g]
    show ((configsFromRows (configUpsert (configUpsert g.edge_config c) inv)).find?
        (fun p => p.1 == c.type)).map Prod.snd = some c
    rw [configsFromRows_lookup _ hn2 c.type]
    simp only [configUpsert]
    rw [find?_upsertBy_other EdgeConfig.type
      (upsertBy EdgeConfig.type g.edge_config c) inv c.type (Ne.symm htt)]
    exact find?_upsertBy_self EdgeConfig.type g.edge_config c
  · rw [hadd g]
    show ((configsFromRows (configUpsert (configUpsert g.edge_config c) inv)).find?
        (fun p => p.1 == t2)).map Prod.snd = some inv
    rw [configsFromRows_lookup _ hn2 t2]
    simp only [configUpsert]
    exact find?_upsertBy_self EdgeConfig.type
      (upsertBy EdgeConfig.type g.edge_config c) inv
  · have hu1 : ∀ r ∈ configUpsert (configUpsert g.edge_config c) inv,
        EdgeConfig.type r = EdgeConfig.type c → r = c :=
      upsertBy_preserve_unique EdgeConfig.type (configUpsert g.edge_config c)
        c inv hxy (upsertBy_key_unique EdgeConfig.type g.edge_config c)
    have hm1 : ∃ r ∈ configUpsert (configUpsert g.edge_config c) inv,
        EdgeConfig.type r = EdgeConfig.type c :=
      upsertBy_preserve_mem EdgeConfig.type (configUpsert g.edge_config c)
        c inv hxy (upsertBy_key_mem EdgeConfig.type g.edge_config c)
    have hQ : configUpsert (configUpsert (configUpsert g.edge_config c) inv) c
        = configUpsert (configUpsert g.edge_config c) inv :=
      upsertBy_id EdgeConfig.type _ c hu1 hm1
    have hR : configUpsert (configUpsert (configUpsert g.edge_config c) inv) inv
        = configUpsert (configUpsert g.edge_config c) inv :=
      upsertBy_id EdgeConfig.type _ inv
        (upsertBy_key_unique EdgeConfig.type (configUpsert g.edge_config c) inv)
        (upsertBy_key_mem EdgeConfig.type (configUpsert g.edge_config c) inv)
    rw [hadd g, hadd _]
    simp [hQ, hR]

theorem c8_derived_inverse_registration_witness :
    ((⟨"t", true, false, some "u", true⟩ : EdgeConfig).inverse_type = some "u" ∧
      (⟨"t", true, false, some "u", true⟩ : EdgeConfig).bidi = false ∧
      ("u" : String) ≠ "" ∧ ("u" : String) ≠ "t" ∧
      (gnbNew.edge_config.map EdgeConfig.type).Nodup) ∧
    configLookup (edge_config_add gnbNew ⟨"t", true, false, some "u", true⟩) "u"
      = some ⟨"u", true, false, some "t", true⟩ :=
  ⟨⟨rfl, rfl, by decide, by decide, by decide⟩,
    (c8_derived_inverse_registration gnbNew ⟨"t", true, false, some "u", true⟩
      "u" rfl rfl (by decide) (by decide) (by decide)).2.1⟩
